import Mathlib

/-!
Shallow embedding of `src/gsi_pth.c`, a parallel Gauss-Seidel solver.

The shared matrix `gs_matrix` (addressed through the row/column-to-offset
map `GS_INDEX`) is modelled as a function `ℕ → ℕ → ℚ`; C `double`
arithmetic is modelled by exact rational arithmetic, which preserves the
order of operations of the source.

The wavefront synchronizer (`row_progress` counters, lines 94-100 and
119-120 of the source) orders the cell updates so that, within each row,
worker `t`'s columns are processed after worker `t-1`'s columns of the same
row, and every cross-boundary read observes exactly the value present at
that point of the induced sequential order.  The iteration loop of
`thread_compute` is therefore embedded as the fold of that linearisation:
for each row (top to bottom), for each worker (in index order), the
worker's column segment of the row, left to right.  Per-worker local
errors, the global error reduction performed by thread 0, and the
`final_iteration` record are carried explicitly.
-/

/-- The shared matrix `gs_matrix`, as a map from (row, column) to value. -/
abbrev Grid : Type := ℕ → ℕ → ℚ

/-- Writing value `v` into cell `(i, j)` of the grid. -/
def gridUpdate (g : Grid) (i j : ℕ) (v : ℚ) : Grid :=
  fun i' j' => if i' = i ∧ j' = j then v else g i' j'

/-- C's `fabs`: the absolute value used for the error terms (line 113). -/
def fabs (q : ℚ) : ℚ := if q < 0 then -q else q

/-- The stencil of `thread_sweep` (lines 105-110):
`0.25 * (below + above + right + left)`, read from the current grid. -/
def stencil (g : Grid) (i j : ℕ) : ℚ :=
  (1 / 4) * (g (i + 1) j + g (i - 1) j + g i (j + 1) + g i (j - 1))

/-- One in-place cell update: write the stencil value into the cell. -/
def updateCell (g : Grid) (i j : ℕ) : Grid :=
  gridUpdate g i j (stencil g i j)

/-- Folding in-place cell updates over a list of (row, column) positions. -/
def sweepCells (g : Grid) (cells : List (ℕ × ℕ)) : Grid :=
  cells.foldl (fun h c => updateCell h c.1 c.2) g

/-- `points_per_thread = interior_size / gs_nthreads` (line 137), with C
integer (floor) division. -/
def points_per_thread (S N : ℕ) : ℕ := (S - 2) / N

/-- `start_col = 1 + tid * points_per_thread` (line 138). -/
def start_col (S N t : ℕ) : ℕ := 1 + t * points_per_thread S N

/-- `end_col = (tid == gs_nthreads - 1) ? gs_size - 1 : start_col +
points_per_thread` (line 139). -/
def end_col (S N t : ℕ) : ℕ :=
  if t = N - 1 then S - 1 else start_col S N t + points_per_thread S N

/-- The list of columns `start_col ≤ j < end_col` owned by worker `t`. -/
def colRange (S N t : ℕ) : List ℕ :=
  List.range' (start_col S N t) (end_col S N t - start_col S N t)

/-- The inner column loop of `thread_sweep` (lines 103-117) on row `i`,
starting at column `start`, for `cnt` columns: returns the updated grid and
the error `|old - new|` accumulated over the processed cells. -/
def sweepRowRange (g : Grid) (i start cnt : ℕ) : Grid × ℚ :=
  match cnt with
  | 0 => (g, 0)
  | n + 1 =>
    let new_value := stencil g i start
    let rest := sweepRowRange (gridUpdate g i start new_value) i (start + 1) n
    (rest.1, fabs (g i start - new_value) + rest.2)

/-- Row `i` processed by all workers in index order (the order enforced by
the wavefront synchronizer): returns the updated grid and the list of each
worker's error contribution for this row. -/
def sweepRowAll (S N i : ℕ) (g : Grid) : Grid × List ℚ :=
  (List.range N).foldl
    (fun acc t =>
      let r := sweepRowRange acc.1 i (start_col S N t)
        (end_col S N t - start_col S N t)
      (r.1, acc.2 ++ [r.2]))
    (g, [])

/-- One full iteration: rows `1 .. S-2` in increasing order (line 93), each
row swept by the workers in index order.  Returns the updated grid and the
per-worker local error sums (`threads[t].error`, line 124). -/
def sweepIteration (S N : ℕ) (g : Grid) : Grid × List ℚ :=
  (List.range' 1 (S - 2)).foldl
    (fun acc i =>
      let r := sweepRowAll S N i acc.1
      (r.1, List.zipWith (· + ·) acc.2 r.2))
    (g, List.replicate N 0)

/-- The process-wide iteration state: the grid, `global_error` and
`final_iteration` (lines 42, 44). -/
structure IterState where
  grid : Grid
  global_error : ℚ
  final_iteration : ℕ

/-- Thread 0's error reduction (lines 159-162): `global_error = 0;` then
`global_error += threads[t].error` for `t = 0 .. N-1`. -/
def globalErrorOf (errs : List ℚ) : ℚ := errs.foldl (· + ·) 0

/-- One iteration of the loop of `thread_compute` (lines 144-175): sweep,
reduce the per-worker errors, and set `final_iteration = iter + 1` whenever
`global_error <= gs_tolerance` (lines 167-170). -/
def gsStep (S N : ℕ) (tol : ℚ) (st : IterState) (iter : ℕ) : IterState :=
  let r := sweepIteration S N st.grid
  let ge := globalErrorOf r.2
  { grid := r.1
    global_error := ge
    final_iteration := if ge ≤ tol then iter + 1 else st.final_iteration }

/-- The state established by `gsi_init` (lines 59-62): `global_error =
gs_tolerance + 1` and `final_iteration = gs_iterations`. -/
def gsi_init (tol : ℚ) (I : ℕ) (g0 : Grid) : IterState :=
  { grid := g0, global_error := tol + 1, final_iteration := I }

/-- The whole run: `gsi_init` followed by the iteration loop for
`iter = 0 .. I-1`. -/
def gsRun (S N I : ℕ) (tol : ℚ) (g0 : Grid) : IterState :=
  (List.range I).foldl (gsStep S N tol) (gsi_init tol I g0)

/-- The grid after `k` complete iterations. -/
def gridAfter (S N : ℕ) (g0 : Grid) : ℕ → Grid
  | 0 => g0
  | k + 1 => (sweepIteration S N (gridAfter S N g0 k)).1

/-- The global error computed during the iteration with 0-based index `k`
(the `(k+1)`-th iteration). -/
def errIter (S N : ℕ) (g0 : Grid) (k : ℕ) : ℚ :=
  globalErrorOf (sweepIteration S N (gridAfter S N g0 k)).2

/-- The convergence report printed by `gsi_calculate` (lines 200-206). -/
inductive RunReport where
  | converged (iterations : ℕ)
  | notConverged
deriving DecidableEq

/-- Lines 200-206: if `global_error <= gs_tolerance`, report convergence
after `final_iteration` iterations, else report non-convergence. -/
def gsReportOf (st : IterState) (tol : ℚ) : RunReport :=
  if st.global_error ≤ tol then RunReport.converged st.final_iteration
  else RunReport.notConverged

/-- Outcome of `gsi_calculate`: either a fatal abort on a failed
`pthread_create`, or normal completion with its printed report. -/
inductive CalcOutcome where
  | fatalCreate (t : ℕ)
  | completed (r : RunReport)
deriving DecidableEq

/-- `gsi_calculate` (lines 184-209): create the workers in order, aborting
at the first failed `pthread_create` (lines 188-193); join the workers,
ignoring `pthread_join`'s return value (lines 196-198, the source never
inspects it, so `joinFails` is unused); then print the report. -/
def gsi_calculate (S N I : ℕ) (tol : ℚ) (g0 : Grid)
    (createFails joinFails : ℕ → Bool) : CalcOutcome :=
  match (List.range N).find? createFails with
  | some t => CalcOutcome.fatalCreate t
  | none => CalcOutcome.completed (gsReportOf (gsRun S N I tol g0) tol)

/-- The values stored into one worker's `row_progress` counter during a
single iteration: the reset to `0` (line 146) followed by the per-row
stores of `i = 1 .. S-2` (line 120). -/
def iterSegment (S : ℕ) : List ℕ := 0 :: List.range' 1 (S - 2)

/-- The values taken by one worker's `row_progress` counter over a whole
run: the `atomic_init` to `0` (line 68) followed by each iteration's
segment. -/
def progressTrace (S I : ℕ) : List ℕ :=
  0 :: (List.range I).flatMap (fun _ => iterSegment S)

/-- Modelled from the spec (section 3, "Column Range"): the spec's ceiling
formula `chunk = ceil((S-2)/N)`, with worker `t` owning
`[1 + t*chunk, min(1 + (t+1)*chunk, S-1))`.  The formula itself is not in
the source; it is stated here only to be compared with `colRange`. -/
def chunkSpec (S N : ℕ) : ℕ := (S - 2 + N - 1) / N

/-- Modelled from the spec (section 3, "Column Range"): the column list the
spec's formula assigns to worker `t`. -/
def colRangeSpec (S N t : ℕ) : List ℕ :=
  List.range' (1 + t * chunkSpec S N)
    (min (1 + (t + 1) * chunkSpec S N) (S - 1) - (1 + t * chunkSpec S N))

/-- The sequence of cell updates of one iteration in the order enforced by
the wavefront synchronizer: rows top to bottom; within a row, the workers'
column segments in worker-index order. -/
def updateSequence (S N : ℕ) : List (ℕ × ℕ) :=
  (List.range' 1 (S - 2)).flatMap
    (fun i => ((List.range N).flatMap (colRange S N)).map (fun j => (i, j)))

/-- The all-zero grid, used for concrete instances. -/
def zeroGrid : Grid := fun _ _ => 0

/-- Iteration `k` (1-based) met the tolerance: the global error computed
during it was at most `tol`. -/
def convergedAtPred (S N : ℕ) (tol : ℚ) (g0 : Grid) (k : ℕ) : Prop :=
  1 ≤ k ∧ errIter S N g0 (k - 1) ≤ tol

instance (S N : ℕ) (tol : ℚ) (g0 : Grid) :
    DecidablePred (convergedAtPred S N tol g0) := fun k =>
  inferInstanceAs (Decidable (1 ≤ k ∧ errIter S N g0 (k - 1) ≤ tol))

/-- A join-failure pattern in which every `pthread_join` fails. -/
def allJoinsFail : ℕ → Bool := fun _ => true

theorem gridUpdate_same (g : Grid) (i j : ℕ) (v : ℚ) : gridUpdate g i j v i j = v := by
  simp [gridUpdate]

theorem gridUpdate_ne (g : Grid) {i j i' j' : ℕ} (v : ℚ) (h : ¬(i' = i ∧ j' = j)) :
    gridUpdate g i j v i' j' = g i' j' := by
  simp only [gridUpdate, if_neg h]

theorem colRange_of_ne_last {S N t : ℕ} (h : t ≠ N - 1) :
    colRange S N t = List.range' (start_col S N t) (points_per_thread S N) := by
  simp [colRange, end_col, h, Nat.add_sub_cancel_left]

theorem colRange_last_eq (S N : ℕ) :
    colRange S N (N - 1)
      = List.range' (start_col S N (N - 1))
          (S - 2 - (N - 1) * points_per_thread S N) := by
  have h : end_col S N (N - 1) - start_col S N (N - 1)
      = S - 2 - (N - 1) * points_per_thread S N := by
    simp only [end_col, start_col, eq_self_iff_true, if_true]
    generalize (N - 1) * points_per_thread S N = x
    omega
  rw [colRange, h]

theorem points_per_thread_total (S N : ℕ) :
    N * points_per_thread S N ≤ S - 2 := by
  rw [Nat.mul_comm]
  exact Nat.div_mul_le_self (S - 2) N

theorem flatMap_colRange_front (S N : ℕ) :
    ∀ k, k ≤ N - 1 →
      (List.range k).flatMap (fun t => colRange S N t)
        = List.range' 1 (k * points_per_thread S N) := by
  intro k
  induction k with
  | zero => intro _; simp
  | succ m ih =>
    intro hm
    rw [List.range_succ, List.flatMap_append, ih (by omega), List.flatMap_cons,
      List.flatMap_nil, List.append_nil, colRange_of_ne_last (by omega)]
    have h := List.range'_append 1 (m * points_per_thread S N)
      (points_per_thread S N) 1
    rw [Nat.one_mul, Nat.add_comm 1 (m * points_per_thread S N)] at h
    rw [start_col, Nat.add_comm 1 (m * points_per_thread S N), h,
      Nat.succ_mul, Nat.add_comm (points_per_thread S N)]

theorem flatMap_colRange (S N : ℕ) (hN : 1 ≤ N) :
    (List.range N).flatMap (fun t => colRange S N t) = List.range' 1 (S - 2) := by
  obtain ⟨M, rfl⟩ : ∃ M, N = M + 1 := ⟨N - 1, by omega⟩
  have hM : M + 1 - 1 = M := by omega
  have hle : M * points_per_thread S (M + 1) ≤ S - 2 :=
    le_trans (Nat.mul_le_mul_right _ (Nat.le_succ M)) (points_per_thread_total S (M + 1))
  have hlast := colRange_last_eq S (M + 1)
  rw [hM] at hlast
  rw [List.range_succ, List.flatMap_append, flatMap_colRange_front S (M + 1) M (by omega),
    List.flatMap_cons, List.flatMap_nil, List.append_nil, hlast, start_col]
  have h := List.range'_append 1 (M * points_per_thread S (M + 1))
    (S - 2 - M * points_per_thread S (M + 1)) 1
  rw [Nat.one_mul, Nat.add_comm 1 (M * points_per_thread S (M + 1))] at h
  rw [Nat.add_comm 1 (M * points_per_thread S (M + 1)), h, Nat.sub_add_cancel hle]

theorem mem_colRange_ge {S N t j : ℕ} (hj : j ∈ colRange S N t) :
    start_col S N t ≤ j := by
  rw [colRange, List.mem_range'_1] at hj
  exact hj.1

theorem mem_colRange_lt_of_ne_last {S N t j : ℕ} (h : t ≠ N - 1)
    (hj : j ∈ colRange S N t) :
    j < start_col S N t + points_per_thread S N := by
  rw [colRange_of_ne_last h, List.mem_range'_1] at hj
  exact hj.2

theorem colRange_disjoint {S N t1 t2 j : ℕ} (ht2 : t2 < N)
    (hlt : t1 < t2) (hj1 : j ∈ colRange S N t1) : j ∉ colRange S N t2 := by
  intro hj2
  have h1 : t1 ≠ N - 1 := by omega
  have hup := mem_colRange_lt_of_ne_last h1 hj1
  have hlo := mem_colRange_ge hj2
  rw [start_col] at hup hlo
  have hB : (t1 + 1) * points_per_thread S N ≤ t2 * points_per_thread S N :=
    Nat.mul_le_mul_right _ hlt
  have hA : t1 * points_per_thread S N + points_per_thread S N
      = (t1 + 1) * points_per_thread S N := (Nat.succ_mul t1 _).symm
  generalize hx : t1 * points_per_thread S N = x at hup hA
  generalize hz : (t1 + 1) * points_per_thread S N = z at hA hB
  generalize hy : t2 * points_per_thread S N = y at hB hlo
  omega

theorem mem_colRange_bounds {S N t j : ℕ} (ht : t < N) (hj : j ∈ colRange S N t) :
    1 ≤ j ∧ j < S - 1 := by
  by_cases hlast : t = N - 1
  · rw [hlast, colRange_last_eq, List.mem_range'_1, start_col] at hj
    have hD : (N - 1) * points_per_thread S N ≤ N * points_per_thread S N :=
      Nat.mul_le_mul_right _ (Nat.sub_le N 1)
    have hC := points_per_thread_total S N
    generalize hx : (N - 1) * points_per_thread S N = x at hj hD
    generalize hy : N * points_per_thread S N = y at hD hC
    omega
  · rw [colRange_of_ne_last hlast, List.mem_range'_1, start_col] at hj
    have hB : (t + 1) * points_per_thread S N ≤ N * points_per_thread S N :=
      Nat.mul_le_mul_right _ ht
    have hA : t * points_per_thread S N + points_per_thread S N
        = (t + 1) * points_per_thread S N := (Nat.succ_mul t _).symm
    have hC := points_per_thread_total S N
    generalize hx : t * points_per_thread S N = x at hj hA
    generalize hz : (t + 1) * points_per_thread S N = z at hA hB
    generalize hy : N * points_per_thread S N = y at hB hC
    omega

/-- C3: for every grid size `S ≥ 3` and worker count `N ≥ 1` (including `N`
not dividing `S-2`, and `N = 1`), the workers' column ranges are contiguous
intervals that concatenate, in worker order, to exactly the interior column
range `[1, S-2]`; they are pairwise disjoint, and every interior column
belongs to some worker's range. -/
theorem colRange_partition (S N : ℕ) (hS : 3 ≤ S) (hN : 1 ≤ N) :
    ((List.range N).flatMap (fun t => colRange S N t) = List.range' 1 (S - 2)) ∧
    (∀ t1 t2, t1 < N → t2 < N → t1 ≠ t2 →
      ∀ j, j ∈ colRange S N t1 → j ∉ colRange S N t2) ∧
    (∀ j, (1 ≤ j ∧ j ≤ S - 2) ↔ ∃ t, t < N ∧ j ∈ colRange S N t) := by
  refine ⟨flatMap_colRange S N hN, ?_, ?_⟩
  · intro t1 t2 ht1 ht2 hne j hj1 hj2
    rcases Nat.lt_or_ge t1 t2 with hlt | hge
    · exact colRange_disjoint ht2 hlt hj1 hj2
    · exact colRange_disjoint ht1 (by omega) hj2 hj1
  · intro j
    constructor
    · intro hj
      have : j ∈ List.range' 1 (S - 2) := by
        rw [List.mem_range'_1]; omega
      rw [← flatMap_colRange S N hN, List.mem_flatMap] at this
      obtain ⟨t, ht, hjt⟩ := this
      exact ⟨t, List.mem_range.mp ht, hjt⟩
    · rintro ⟨t, ht, hjt⟩
      have := mem_colRange_bounds ht hjt
      omega

/-- C4 counterexample: at `S = 5`, `N = 2`, `t = 0` (with `3 ≤ S`, `1 ≤ N`,
`t < N`), the code's floor-based range is `[1]` while the spec's ceiling
formula yields `[1, 2]`. -/
theorem colRange_ne_spec_formula :
    3 ≤ 5 ∧ 1 ≤ 2 ∧ 0 < 2 ∧ colRange 5 2 0 ≠ colRangeSpec 5 2 0 := by decide

/-- C4 (amended): with `chunk = floor((S-2)/N)` (the code's
`points_per_thread`), worker `t` owns exactly the columns
`[1 + t*chunk, 1 + (t+1)*chunk)`, except that the last worker's range
extends to `S-1`, absorbing any remainder. -/
theorem colRange_floor_formula (S N t j : ℕ) (hS : 3 ≤ S) (hN : 1 ≤ N)
    (ht : t < N) :
    j ∈ colRange S N t ↔
      (1 + t * points_per_thread S N ≤ j ∧
        j < if t = N - 1 then S - 1
            else 1 + (t + 1) * points_per_thread S N) := by
  by_cases hlast : t = N - 1
  · subst hlast
    rw [colRange_last_eq, List.mem_range'_1, start_col, if_pos rfl]
    have hD : (N - 1) * points_per_thread S N ≤ N * points_per_thread S N :=
      Nat.mul_le_mul_right _ (Nat.sub_le N 1)
    have hC := points_per_thread_total S N
    generalize hx : (N - 1) * points_per_thread S N = x at hD ⊢
    generalize hy : N * points_per_thread S N = y at hD hC
    constructor
    · rintro ⟨h1, h2⟩; exact ⟨h1, by omega⟩
    · rintro ⟨h1, h2⟩; exact ⟨h1, by omega⟩
  · rw [colRange_of_ne_last hlast, List.mem_range'_1, start_col, if_neg hlast,
      Nat.succ_mul, Nat.add_assoc]

theorem sweepCells_cons (g : Grid) (c : ℕ × ℕ) (l : List (ℕ × ℕ)) :
    sweepCells g (c :: l) = sweepCells (updateCell g c.1 c.2) l := rfl

theorem sweepCells_append (g : Grid) (l1 l2 : List (ℕ × ℕ)) :
    sweepCells g (l1 ++ l2) = sweepCells (sweepCells g l1) l2 :=
  List.foldl_append _ _ _ _

theorem sweepRowRange_succ (g : Grid) (i start n : ℕ) :
    sweepRowRange g i start (n + 1)
      = ((sweepRowRange (gridUpdate g i start (stencil g i start)) i (start + 1) n).1,
         fabs (g i start - stencil g i start)
           + (sweepRowRange (gridUpdate g i start (stencil g i start)) i (start + 1) n).2) :=
  rfl

theorem sweepRowRange_grid (i : ℕ) :
    ∀ (cnt start : ℕ) (g : Grid),
      (sweepRowRange g i start cnt).1
        = sweepCells g ((List.range' start cnt).map (fun j => (i, j))) := by
  intro cnt
  induction cnt with
  | zero => intro start g; rfl
  | succ n ih =>
    intro start g
    rw [List.range'_succ, List.map_cons, sweepCells_cons, sweepRowRange_succ]
    exact ih (start + 1) (gridUpdate g i start (stencil g i start))

theorem sweepRowAll_aux (S N i : ℕ) :
    ∀ (l : List ℕ) (g : Grid) (es : List ℚ),
      ((l.foldl (fun acc t =>
          let r := sweepRowRange acc.1 i (start_col S N t)
            (end_col S N t - start_col S N t)
          (r.1, acc.2 ++ [r.2])) (g, es)).1)
        = sweepCells g ((l.flatMap (fun t => colRange S N t)).map (fun j => (i, j))) := by
  intro l
  induction l with
  | nil => intro g es; rfl
  | cons t l ih =>
    intro g es
    rw [List.foldl_cons, List.flatMap_cons, List.map_append, sweepCells_append]
    simp only [colRange]
    rw [← sweepRowRange_grid i (end_col S N t - start_col S N t) (start_col S N t) g]
    exact ih _ _

theorem sweepRowAll_grid (S N i : ℕ) (g : Grid) :
    (sweepRowAll S N i g).1
      = sweepCells g (((List.range N).flatMap (fun t => colRange S N t)).map
          (fun j => (i, j))) :=
  sweepRowAll_aux S N i (List.range N) g []

theorem sweepIteration_aux (S N : ℕ) :
    ∀ (rows : List ℕ) (g : Grid) (es : List ℚ),
      ((rows.foldl (fun acc i =>
          let r := sweepRowAll S N i acc.1
          (r.1, List.zipWith (· + ·) acc.2 r.2)) (g, es)).1)
        = sweepCells g (rows.flatMap
            (fun i => ((List.range N).flatMap (fun t => colRange S N t)).map
              (fun j => (i, j)))) := by
  intro rows
  induction rows with
  | nil => intro g es; rfl
  | cons i rows ih =>
    intro g es
    rw [List.foldl_cons, List.flatMap_cons, sweepCells_append, ← sweepRowAll_grid]
    exact ih _ _

theorem sweepIteration_grid (S N : ℕ) (g : Grid) :
    (sweepIteration S N g).1 = sweepCells g (updateSequence S N) :=
  sweepIteration_aux S N (List.range' 1 (S - 2)) g (List.replicate N 0)

theorem updateSequence_eq_seq (S N : ℕ) (hN : 1 ≤ N) :
    updateSequence S N = updateSequence S 1 := by
  unfold updateSequence
  rw [flatMap_colRange S N hN, flatMap_colRange S 1 (Nat.le_refl 1)]

theorem gsRun_fold_grid_eq (S N : ℕ) (tol : ℚ) (hN : 1 ≤ N) :
    ∀ (l : List ℕ) (st1 st2 : IterState), st1.grid = st2.grid →
      ((l.foldl (gsStep S N tol) st1).grid) = ((l.foldl (gsStep S 1 tol) st2).grid) := by
  intro l
  induction l with
  | nil => intro st1 st2 h; exact h
  | cons a l ih =>
    intro st1 st2 h
    rw [List.foldl_cons, List.foldl_cons]
    apply ih
    show (sweepIteration S N st1.grid).1 = (sweepIteration S 1 st2.grid).1
    rw [sweepIteration_grid, sweepIteration_grid, h, updateSequence_eq_seq S N hN]

/-- C1: for every grid size, initial grid (with its boundary values) and
iteration count, the wavefront-ordered update sequence with `N ≥ 1` workers
is exactly the single sequential top-to-bottom, left-to-right sweep
sequence, and consequently the final grid of the `N`-worker run is
identical to the final grid of the 1-worker run. -/
theorem thread_count_independence (S N I : ℕ) (tol : ℚ) (g0 : Grid)
    (hN : 1 ≤ N) :
    updateSequence S N = updateSequence S 1 ∧
    (gsRun S N I tol g0).grid = (gsRun S 1 I tol g0).grid :=
  ⟨updateSequence_eq_seq S N hN,
   gsRun_fold_grid_eq S N tol hN (List.range I) (gsi_init tol I g0)
     (gsi_init tol I g0) rfl⟩

theorem thread_count_independence_witness :
    updateSequence 10 4 = updateSequence 10 1 ∧
    (gsRun 10 4 3 0 zeroGrid).grid = (gsRun 10 1 3 0 zeroGrid).grid :=
  thread_count_independence 10 4 3 0 zeroGrid (by decide)

theorem gsFold_succ (S N : ℕ) (tol : ℚ) (st : IterState) (I : ℕ) :
    (List.range (I + 1)).foldl (gsStep S N tol) st
      = gsStep S N tol ((List.range I).foldl (gsStep S N tol) st) I := by
  rw [List.range_succ, List.foldl_append, List.foldl_cons, List.foldl_nil]

theorem gsFold_grid (S N : ℕ) (tol : ℚ) :
    ∀ (I : ℕ) (st : IterState),
      ((List.range I).foldl (gsStep S N tol) st).grid = gridAfter S N st.grid I := by
  intro I
  induction I with
  | zero => intro st; rfl
  | succ m ih =>
    intro st
    rw [gsFold_succ]
    show (sweepIteration S N (((List.range m).foldl (gsStep S N tol) st).grid)).1
      = gridAfter S N st.grid (m + 1)
    rw [ih st]
    rfl

theorem gsFold_global_error (S N : ℕ) (tol : ℚ) (st : IterState) (I : ℕ)
    (hI : 1 ≤ I) :
    ((List.range I).foldl (gsStep S N tol) st).global_error
      = errIter S N st.grid (I - 1) := by
  obtain ⟨m, rfl⟩ : ∃ m, I = m + 1 := ⟨I - 1, by omega⟩
  rw [gsFold_succ]
  show globalErrorOf (sweepIteration S N
      (((List.range m).foldl (gsStep S N tol) st).grid)).2
    = errIter S N st.grid (m + 1 - 1)
  rw [gsFold_grid]
  rfl

theorem gsFold_final_iteration (S N : ℕ) (tol : ℚ) (g0 : Grid) :
    ∀ (I : ℕ) (ge0 : ℚ) (f0 : ℕ),
      ((List.range I).foldl (gsStep S N tol)
          ⟨g0, ge0, f0⟩).final_iteration
        = if Nat.findGreatest (convergedAtPred S N tol g0) I = 0 then f0
          else Nat.findGreatest (convergedAtPred S N tol g0) I := by
  intro I
  induction I with
  | zero => intro ge0 f0; simp [Nat.findGreatest]
  | succ m ih =>
    intro ge0 f0
    rw [gsFold_succ]
    show (if globalErrorOf (sweepIteration S N
            (((List.range m).foldl (gsStep S N tol) ⟨g0, ge0, f0⟩).grid)).2 ≤ tol
          then m + 1
          else ((List.range m).foldl (gsStep S N tol)
            ⟨g0, ge0, f0⟩).final_iteration)
      = _
    rw [gsFold_grid, ih ge0 f0, Nat.findGreatest_succ]
    have hP : convergedAtPred S N tol g0 (m + 1)
        ↔ globalErrorOf (sweepIteration S N (gridAfter S N g0 m)).2 ≤ tol := by
      unfold convergedAtPred errIter
      simp
    by_cases hc : globalErrorOf (sweepIteration S N (gridAfter S N g0 m)).2 ≤ tol
    · rw [if_pos hc, if_pos (hP.mpr hc), if_neg (by omega)]
    · rw [if_neg hc, if_neg (fun h => hc (hP.mp h))]

/-- C2 (amended): the recorded final iteration after the loop completes
equals the greatest (1-based) iteration `k ≤ I` whose global error met the
tolerance — the last such iteration, not the first — and equals the
configured maximum `I` when no iteration met it. -/
theorem final_iteration_is_last_convergence (S N I : ℕ) (tol : ℚ) (g0 : Grid) :
    (gsRun S N I tol g0).final_iteration
      = if Nat.findGreatest (convergedAtPred S N tol g0) I = 0 then I
        else Nat.findGreatest (convergedAtPred S N tol g0) I :=
  gsFold_final_iteration S N tol g0 I (tol + 1) I

/-- C2 counterexample: on the all-zero 3x3 grid with tolerance 0 and
`I = 2`, the tolerance is already met at iteration 1 (the error of the
first iteration is 0), yet the recorded final iteration is 2, not the
first convergence iteration 1. -/
theorem final_iteration_not_first_convergence :
    errIter 3 1 zeroGrid 0 ≤ 0 ∧
    (gsRun 3 1 2 0 zeroGrid).final_iteration = 2 ∧
    (gsRun 3 1 2 0 zeroGrid).final_iteration ≠ 1 := by
  refine ⟨?_, ?_, ?_⟩
  · simp [errIter, gridAfter, sweepIteration, sweepRowAll, sweepRowRange,
      globalErrorOf, colRange, start_col, end_col, points_per_thread, stencil,
      gridUpdate, zeroGrid, fabs, List.range', List.range_succ, List.range_zero]
  · simp [gsRun, gsi_init, gsStep, sweepIteration, sweepRowAll, sweepRowRange,
      globalErrorOf, colRange, start_col, end_col, points_per_thread, stencil,
      gridUpdate, zeroGrid, fabs, List.range', List.range_succ, List.range_zero]
  · simp [gsRun, gsi_init, gsStep, sweepIteration, sweepRowAll, sweepRowRange,
      globalErrorOf, colRange, start_col, end_col, points_per_thread, stencil,
      gridUpdate, zeroGrid, fabs, List.range', List.range_succ, List.range_zero]

theorem gsRun_grid (S N I : ℕ) (tol : ℚ) (g0 : Grid) :
    (gsRun S N I tol g0).grid = gridAfter S N g0 I :=
  gsFold_grid S N tol I (gsi_init tol I g0)

theorem gsRun_global_error (S N I : ℕ) (tol : ℚ) (g0 : Grid) (hI : 1 ≤ I) :
    (gsRun S N I tol g0).global_error = errIter S N g0 (I - 1) :=
  gsFold_global_error S N tol (gsi_init tol I g0) I hI

theorem gsRun_final_char (S N I : ℕ) (tol : ℚ) (g0 : Grid) :
    (gsRun S N I tol g0).final_iteration
      = if Nat.findGreatest (convergedAtPred S N tol g0) I = 0 then I
        else Nat.findGreatest (convergedAtPred S N tol g0) I :=
  gsFold_final_iteration S N tol g0 I (tol + 1) I

/-- C9: reaching the maximum iteration count with every iteration's error
above the tolerance is not an error: the run completes with the
non-convergence report (the diagnostic), the recorded final iteration equal
to the configured maximum, and the computed grid still available; and
whenever the converged report is produced, the reported iteration number is
one at which the tolerance was in fact met. -/
theorem non_convergence_is_normal (S N I : ℕ) (tol : ℚ) (g0 : Grid) :
    ((∀ k, k < I → ¬ errIter S N g0 k ≤ tol) →
      gsReportOf (gsRun S N I tol g0) tol = RunReport.notConverged ∧
      (gsRun S N I tol g0).final_iteration = I ∧
      (gsRun S N I tol g0).grid = gridAfter S N g0 I) ∧
    (∀ n, gsReportOf (gsRun S N I tol g0) tol = RunReport.converged n →
      1 ≤ n ∧ n ≤ I ∧ errIter S N g0 (n - 1) ≤ tol) := by
  constructor
  · intro h
    have hgrid := gsRun_grid S N I tol g0
    have hnc : ¬ (gsRun S N I tol g0).global_error ≤ tol := by
      by_cases hI : I = 0
      · subst hI
        show ¬ tol + 1 ≤ tol
        linarith
      · rw [gsRun_global_error S N I tol g0 (by omega)]
        exact h (I - 1) (by omega)
    have hfg : Nat.findGreatest (convergedAtPred S N tol g0) I = 0 :=
      Nat.findGreatest_eq_zero_iff.mpr
        (fun m hm hmI hP => h (m - 1) (by omega) hP.2)
    refine ⟨?_, ?_, hgrid⟩
    · unfold gsReportOf
      rw [if_neg hnc]
    · rw [gsRun_final_char, hfg, if_pos rfl]
  · intro n hn
    by_cases hI : I = 0
    · exfalso
      have hnc : ¬ (gsRun S N I tol g0).global_error ≤ tol := by
        subst hI
        show ¬ tol + 1 ≤ tol
        linarith
      unfold gsReportOf at hn
      rw [if_neg hnc] at hn
      exact RunReport.noConfusion hn
    · have hI1 : 1 ≤ I := by omega
      have hge := gsRun_global_error S N I tol g0 hI1
      unfold gsReportOf at hn
      by_cases hc : (gsRun S N I tol g0).global_error ≤ tol
      · rw [if_pos hc] at hn
        have hne : n = (gsRun S N I tol g0).final_iteration :=
          (RunReport.converged.inj hn).symm
        have hP : convergedAtPred S N tol g0 I := by
          refine ⟨hI1, ?_⟩
          rw [← hge]
          exact hc
        have hfgI : Nat.findGreatest (convergedAtPred S N tol g0) I = I :=
          Nat.le_antisymm (Nat.findGreatest_le I) (Nat.le_findGreatest (le_refl I) hP)
        have hfin : (gsRun S N I tol g0).final_iteration = I := by
          rw [gsRun_final_char, hfgI, if_neg (by omega)]
        rw [hne, hfin]
        refine ⟨hI1, le_refl I, ?_⟩
        rw [← hge]
        exact hc
      · rw [if_neg hc] at hn
        exact RunReport.noConfusion hn

theorem non_convergence_is_normal_witness :
    gsReportOf (gsRun 3 1 1 (-1) zeroGrid) (-1) = RunReport.notConverged ∧
    (gsRun 3 1 1 (-1) zeroGrid).final_iteration = 1 ∧
    (gsRun 3 1 1 (-1) zeroGrid).grid = gridAfter 3 1 zeroGrid 1 :=
  (non_convergence_is_normal 3 1 1 (-1) zeroGrid).1 (by
    intro k hk
    have hk0 : k = 0 := by omega
    subst hk0
    have h0 : errIter 3 1 zeroGrid 0 = 0 := by
      simp [errIter, gridAfter, sweepIteration, sweepRowAll, sweepRowRange,
        globalErrorOf, colRange, start_col, end_col, points_per_thread, stencil,
        gridUpdate, zeroGrid, fabs, List.range', List.range_succ, List.range_zero]
    rw [h0]
    norm_num)

/-- C10: with a configured maximum iteration count of 0, a full
initialize/run sequence performs no sweeps — the grid is unchanged — the
report is the non-convergence one (the initial global error `tol + 1` is
strictly above the tolerance), and the recorded final iteration is 0. -/
theorem zero_iteration_run (S N : ℕ) (tol : ℚ) (g0 : Grid) :
    (gsRun S N 0 tol g0).grid = g0 ∧
    gsReportOf (gsRun S N 0 tol g0) tol = RunReport.notConverged ∧
    (gsRun S N 0 tol g0).final_iteration = 0 := by
  refine ⟨rfl, ?_, rfl⟩
  have h : ¬ (gsRun S N 0 tol g0).global_error ≤ tol := by
    show ¬ tol + 1 ≤ tol
    linarith
  unfold gsReportOf
  rw [if_neg h]

theorem sweepRowRange_frame (i : ℕ) :
    ∀ (cnt : ℕ) (g : Grid) (start i' j' : ℕ),
      (i' ≠ i ∨ j' < start ∨ start + cnt ≤ j') →
      (sweepRowRange g i start cnt).1 i' j' = g i' j' := by
  intro cnt
  induction cnt with
  | zero => intro g start i' j' _; rfl
  | succ n ih =>
    intro g start i' j' h
    show (sweepRowRange (gridUpdate g i start (stencil g i start)) i (start + 1) n).1 i' j'
      = g i' j'
    rw [ih (gridUpdate g i start (stencil g i start)) (start + 1) i' j'
      (by rcases h with h | h | h
          · exact Or.inl h
          · exact Or.inr (Or.inl (by omega))
          · exact Or.inr (Or.inr (by omega)))]
    exact gridUpdate_ne g _ (fun hc =>
      by rcases h with h | h | h
         · exact h hc.1
         · omega
         · omega)

theorem sweepRowRange_at_first (g : Grid) (i start n : ℕ) :
    (sweepRowRange g i start (n + 1)).1 i start = stencil g i start := by
  show (sweepRowRange (gridUpdate g i start (stencil g i start)) i (start + 1) n).1 i start
    = stencil g i start
  rw [sweepRowRange_frame i n (gridUpdate g i start (stencil g i start)) (start + 1) i start
    (Or.inr (Or.inl (by omega)))]
  exact gridUpdate_same g i start _

theorem sweepRowRange_error (i : ℕ) :
    ∀ (cnt : ℕ) (g : Grid) (start : ℕ),
      (sweepRowRange g i start cnt).2
        = ((List.range cnt).map
            (fun k => fabs (g i (start + k)
              - (sweepRowRange g i start cnt).1 i (start + k)))).sum := by
  intro cnt
  induction cnt with
  | zero => intro g start; rfl
  | succ n ih =>
    intro g start
    rw [List.range_succ_eq_map, List.map_cons, List.sum_cons, List.map_map]
    show fabs (g i start - stencil g i start)
        + (sweepRowRange (gridUpdate g i start (stencil g i start)) i (start + 1) n).2
      = fabs (g i (start + 0) - (sweepRowRange g i start (n + 1)).1 i (start + 0)) + _
    congr 1
    · rw [Nat.add_zero, sweepRowRange_at_first]
    · rw [ih (gridUpdate g i start (stencil g i start)) (start + 1)]
      congr 1
      apply List.map_congr_left
      intro k _
      show fabs (gridUpdate g i start (stencil g i start) i (start + 1 + k)
          - (sweepRowRange (gridUpdate g i start (stencil g i start)) i (start + 1) n).1
              i (start + 1 + k))
        = fabs (g i (start + (k + 1))
            - (sweepRowRange g i start (n + 1)).1 i (start + (k + 1)))
      rw [gridUpdate_ne g _ (fun hc => by omega),
        show start + 1 + k = start + (k + 1) from by omega]
      rfl

theorem sweepRowRange_value (i : ℕ) :
    ∀ (cnt : ℕ) (g : Grid) (start : ℕ), ∀ k, k < cnt →
      (sweepRowRange g i start cnt).1 i (start + k)
        = (1 / 4) * (g (i + 1) (start + k) + g (i - 1) (start + k)
            + g i (start + k + 1)
            + (if k = 0 then g i (start - 1)
               else (sweepRowRange g i start cnt).1 i (start + k - 1))) := by
  intro cnt
  induction cnt with
  | zero => intro g start k hk; omega
  | succ n ih =>
    intro g start k hk
    cases k with
    | zero =>
      rw [if_pos rfl, show start + 0 = start from rfl, sweepRowRange_at_first]
      rfl
    | succ m =>
      rw [if_neg (Nat.succ_ne_zero m)]
      have h1 := ih (gridUpdate g i start (stencil g i start)) (start + 1) m (by omega)
      rw [gridUpdate_ne g _ (fun hc => Nat.succ_ne_self i hc.1),
        gridUpdate_ne g _ (fun hc => by omega),
        gridUpdate_ne g _ (fun hc => by omega)] at h1
      have e1 : start + 1 + m = start + (m + 1) := by omega
      cases m with
      | zero =>
        rw [if_pos rfl, Nat.add_sub_cancel] at h1
        rw [gridUpdate_same] at h1
        show (sweepRowRange (gridUpdate g i start (stencil g i start)) i (start + 1) n).1
            i (start + (0 + 1))
          = (1 / 4) * (g (i + 1) (start + (0 + 1)) + g (i - 1) (start + (0 + 1))
              + g i (start + (0 + 1) + 1)
              + (sweepRowRange g i start (n + 1)).1 i (start + (0 + 1) - 1))
        rw [show start + (0 + 1) - 1 = start from by omega, sweepRowRange_at_first,
          ← e1, h1]
      | succ p =>
        rw [if_neg (Nat.succ_ne_zero p)] at h1
        show (sweepRowRange (gridUpdate g i start (stencil g i start)) i (start + 1) n).1
            i (start + (p + 1 + 1))
          = (1 / 4) * (g (i + 1) (start + (p + 1 + 1)) + g (i - 1) (start + (p + 1 + 1))
              + g i (start + (p + 1 + 1) + 1)
              + (sweepRowRange g i start (n + 1)).1 i (start + (p + 1 + 1) - 1))
        rw [show start + (p + 1 + 1) = start + 1 + (p + 1) from by omega, h1,
          show start + 1 + (p + 1) - 1 = start + 1 + p from by omega]
        rfl

/-- C5: during a worker's sweep of one row, the new value written to each
cell of its range is one quarter of the sum of its four neighbours as read
at the moment of the update — the already-updated current value for the
left neighbour when it was processed earlier in the same row (`k ≠ 0`), the
pre-sweep value for the other three (and for the left neighbour of the
range's first cell) — and the error accumulated over the range is the sum
of `|old - new|` over its cells. -/
theorem sweep_stencil_and_error (g : Grid) (i start cnt : ℕ) (hs : 1 ≤ start) :
    (∀ k, k < cnt →
      (sweepRowRange g i start cnt).1 i (start + k)
        = (1 / 4) * (g (i + 1) (start + k) + g (i - 1) (start + k)
            + g i (start + k + 1)
            + (if k = 0 then g i (start - 1)
               else (sweepRowRange g i start cnt).1 i (start + k - 1)))) ∧
    (sweepRowRange g i start cnt).2
      = ((List.range cnt).map
          (fun k => fabs (g i (start + k)
            - (sweepRowRange g i start cnt).1 i (start + k)))).sum :=
  ⟨fun k hk => sweepRowRange_value i cnt g start k hk,
   sweepRowRange_error i cnt g start⟩

theorem sweep_stencil_and_error_witness :
    (∀ k, k < 2 →
      (sweepRowRange zeroGrid 1 1 2).1 1 (1 + k)
        = (1 / 4) * (zeroGrid (1 + 1) (1 + k) + zeroGrid (1 - 1) (1 + k)
            + zeroGrid 1 (1 + k + 1)
            + (if k = 0 then zeroGrid 1 (1 - 1)
               else (sweepRowRange zeroGrid 1 1 2).1 1 (1 + k - 1)))) ∧
    (sweepRowRange zeroGrid 1 1 2).2
      = ((List.range 2).map
          (fun k => fabs (zeroGrid 1 (1 + k)
            - (sweepRowRange zeroGrid 1 1 2).1 1 (1 + k)))).sum :=
  sweep_stencil_and_error zeroGrid 1 1 2 (by decide)

theorem sweepCells_frame :
    ∀ (cells : List (ℕ × ℕ)) (g : Grid) (i j : ℕ),
      (∀ c ∈ cells, c.1 ≠ i ∨ c.2 ≠ j) → sweepCells g cells i j = g i j := by
  intro cells
  induction cells with
  | nil => intro g i j _; rfl
  | cons c l ih =>
    intro g i j h
    rw [sweepCells_cons, ih _ i j (fun d hd => h d (List.mem_cons_of_mem c hd))]
    show gridUpdate g c.1 c.2 (stencil g c.1 c.2) i j = g i j
    exact gridUpdate_ne g (stencil g c.1 c.2) (fun hc => by
      rcases h c (List.mem_cons_self c l) with h1 | h2
      · exact h1 hc.1.symm
      · exact h2 hc.2.symm)

theorem mem_updateSequence_bounds {S N : ℕ} {c : ℕ × ℕ}
    (hc : c ∈ updateSequence S N) :
    1 ≤ c.1 ∧ c.1 ≤ S - 2 ∧ 1 ≤ c.2 ∧ c.2 < S - 1 := by
  unfold updateSequence at hc
  rw [List.mem_flatMap] at hc
  obtain ⟨i, hi, hc⟩ := hc
  rw [List.mem_map] at hc
  obtain ⟨j, hj, rfl⟩ := hc
  rw [List.mem_flatMap] at hj
  obtain ⟨t, ht, hj⟩ := hj
  have hb := mem_colRange_bounds (List.mem_range.mp ht) hj
  rw [List.mem_range'_1] at hi
  exact ⟨hi.1, by omega, hb.1, hb.2⟩

/-- C6: for every run configuration and every number of iterations, cells
on row 0, row `S-1`, column 0 or column `S-1` of the grid are never
written: after the run they hold their initial values. -/
theorem boundary_immutability (S N I : ℕ) (tol : ℚ) (g0 : Grid) (i j : ℕ)
    (h : i = 0 ∨ i = S - 1 ∨ j = 0 ∨ j = S - 1) :
    (gsRun S N I tol g0).grid i j = g0 i j := by
  rw [gsRun_grid]
  induction I with
  | zero => rfl
  | succ m ih =>
    show (sweepIteration S N (gridAfter S N g0 m)).1 i j = g0 i j
    rw [sweepIteration_grid, sweepCells_frame (updateSequence S N)
      (gridAfter S N g0 m) i j ?_, ih]
    intro c hc
    have hb := mem_updateSequence_bounds hc
    omega

theorem boundary_immutability_witness :
    (gsRun 3 1 1 0 zeroGrid).grid 0 0 = zeroGrid 0 0 :=
  boundary_immutability 3 1 1 0 zeroGrid 0 0 (Or.inl rfl)

/-- C7 counterexample: over a whole run with `S = 3` and two iterations,
the stored values of a worker's `row_progress` counter are
`[0, 0, 1, 0, 1]`: the reset at the start of the second iteration drops the
counter from 1 back to 0, so the sequence is not non-decreasing over the
whole run. -/
theorem progress_trace_not_monotone :
    progressTrace 3 2 = [0, 0, 1, 0, 1] ∧
    ¬ List.Chain' (· ≤ ·) (progressTrace 3 2) := by
  constructor
  · decide
  · intro hch
    rw [show progressTrace 3 2 = [0, 0, 1, 0, 1] from by decide,
      List.chain'_cons, List.chain'_cons, List.chain'_cons, List.chain'_cons] at hch
    have h10 : (1 : ℕ) ≤ 0 := hch.2.2.1
    omega

/-- C7 (amended): within each single iteration the stored values of a
worker's `row_progress` counter are strictly increasing, taking every
integer value from the reset sentinel 0 up to the last interior row `S-2`
exactly once (one store per completed row after the reset); across
iterations the counter is reset back to the sentinel, so it is not
non-decreasing over a whole multi-iteration run. -/
theorem progress_within_iteration (S : ℕ) (hS : 3 ≤ S) :
    List.Chain' (· < ·) (iterSegment S) ∧
    ∀ v : ℕ, (iterSegment S).count v = if v ≤ S - 2 then 1 else 0 := by
  have hseg : iterSegment S = List.range' 0 (S - 2 + 1) := by
    rw [List.range'_succ]
    rfl
  constructor
  · rw [hseg]
    exact (List.pairwise_lt_range' 0 (S - 2 + 1) 1).chain'
  · intro v
    rw [hseg]
    by_cases hv : v ≤ S - 2
    · rw [if_pos hv]
      refine List.count_eq_one_of_mem (List.nodup_range' 0 (S - 2 + 1)) ?_
      rw [List.mem_range'_1]
      omega
    · rw [if_neg hv]
      refine List.count_eq_zero_of_not_mem ?_
      rw [List.mem_range'_1]
      omega

theorem progress_within_iteration_witness :
    List.Chain' (· < ·) (iterSegment 4) ∧
    ∀ v : ℕ, (iterSegment 4).count v = if v ≤ 4 - 2 then 1 else 0 :=
  progress_within_iteration 4 (by decide)

/-- C8 counterexample: with one worker whose `pthread_join` fails
(`allJoinsFail`), the run does not abort: it continues to the result
report and completes with a convergence printout. -/
theorem join_failure_not_fatal :
    allJoinsFail 0 = true ∧
    gsi_calculate 3 1 1 0 zeroGrid (fun _ => false) allJoinsFail
      = CalcOutcome.completed (RunReport.converged 1) := by
  constructor
  · rfl
  · simp [gsi_calculate, gsReportOf, gsRun, gsi_init, gsStep, sweepIteration,
      sweepRowAll, sweepRowRange, globalErrorOf, colRange, start_col, end_col,
      points_per_thread, stencil, gridUpdate, zeroGrid, fabs, List.range',
      List.range_succ, List.range_zero, List.find?]

/-- C8 (amended): the run entry point aborts before the result report
precisely when creation of some worker thread fails (at the first failing
index); the return value of `pthread_join` is ignored, so join failures
never prevent the run from continuing to the result report. -/
theorem thread_lifecycle_failure (S N I : ℕ) (tol : ℚ) (g0 : Grid)
    (createFails joinFails : ℕ → Bool) :
    (gsi_calculate S N I tol g0 createFails joinFails
        = CalcOutcome.completed (gsReportOf (gsRun S N I tol g0) tol)
      ↔ ∀ t, t < N → createFails t = false) ∧
    ((∃ t, t < N ∧ createFails t = true) →
      ∃ t, t < N ∧ createFails t = true ∧
        gsi_calculate S N I tol g0 createFails joinFails
          = CalcOutcome.fatalCreate t) := by
  cases hfind : (List.range N).find? createFails with
  | none =>
    have heq : gsi_calculate S N I tol g0 createFails joinFails
        = CalcOutcome.completed (gsReportOf (gsRun S N I tol g0) tol) := by
      unfold gsi_calculate
      rw [hfind]
    have hnone := List.find?_eq_none.mp hfind
    constructor
    · constructor
      · intro _ t ht
        have h := hnone t (List.mem_range.mpr ht)
        simpa using h
      · intro _
        exact heq
    · rintro ⟨t, ht, hct⟩
      exact absurd hct (by simpa using hnone t (List.mem_range.mpr ht))
  | some t =>
    have heq : gsi_calculate S N I tol g0 createFails joinFails
        = CalcOutcome.fatalCreate t := by
      unfold gsi_calculate
      rw [hfind]
    have hsome := List.find?_some hfind
    have hmem := List.mem_range.mp (List.mem_of_find?_eq_some hfind)
    constructor
    · constructor
      · intro hcontr
        rw [heq] at hcontr
        exact CalcOutcome.noConfusion hcontr
      · intro hall
        exact absurd hsome (by simp [hall t hmem])
    · intro _
      exact ⟨t, hmem, hsome, heq⟩

theorem thread_lifecycle_failure_witness :
    gsi_calculate 3 2 1 0 zeroGrid (fun _ => false) allJoinsFail
      = CalcOutcome.completed (gsReportOf (gsRun 3 2 1 0 zeroGrid) 0) :=
  (thread_lifecycle_failure 3 2 1 0 zeroGrid (fun _ => false) allJoinsFail).1.mpr
    (fun t _ => rfl)

theorem colRange_partition_witness :
    ((List.range 3).flatMap (fun t => colRange 10 3 t) = List.range' 1 (10 - 2)) ∧
    (∀ t1 t2, t1 < 3 → t2 < 3 → t1 ≠ t2 →
      ∀ j, j ∈ colRange 10 3 t1 → j ∉ colRange 10 3 t2) ∧
    (∀ j, (1 ≤ j ∧ j ≤ 10 - 2) ↔ ∃ t, t < 3 ∧ j ∈ colRange 10 3 t) :=
  colRange_partition 10 3 (by decide) (by decide)

theorem colRange_floor_formula_witness :
    (3 : ℕ) ∈ colRange 10 3 1 ↔
      (1 + 1 * points_per_thread 10 3 ≤ 3 ∧
        (3 : ℕ) < if (1 : ℕ) = 3 - 1 then 10 - 1
            else 1 + (1 + 1) * points_per_thread 10 3) :=
  colRange_floor_formula 10 3 1 3 (by decide) (by decide) (by decide)
